import Mathlib

/-!
Verification of the `rust_threadpool` crate (src/lib.rs).

The crate is a fixed-size thread pool:

* `ThreadPool::new(size)` asserts `size > 0`, creates an `mpsc::channel`,
  wraps the receiver in `Arc<Mutex<...>>`, and spawns `size` workers that
  each loop `{ let message = receiver.lock().unwrap().recv(); match ... }`.
* `ThreadPool::execute(f)` boxes the job and runs
  `self.sender.as_ref().unwrap().send(job).unwrap()`.
* `Drop for ThreadPool` runs `drop(self.sender.take())` and then, for each
  worker in construction order, `if let Some(thread) = worker.thread.take()
  { thread.join().unwrap(); }`.

The development has two layers.

1. A small-step interleaving semantics (`Sys`, `Step`): each worker thread
   is a phase machine, the main thread is a phase machine for
   `execute`/`Drop`, and the channel is an explicit FIFO list.  A job is
   abstracted by the two things the pool can observe about it: an identity
   and whether running its body panics.
2. A pure model of the `ThreadPool` struct's fields (`PoolSt`) for the
   claims about `sender: Option<Sender>` and `thread: Option<JoinHandle>`.
-/

namespace Threadpool

/-- A submitted job (`type Job = Box<dyn FnOnce() + Send + 'static>`),
abstracted by its identity and by whether running its body panics —
the only aspects of a job the pool itself interacts with. -/
structure Job where
  id : Nat
  panics : Bool
deriving DecidableEq, Repr

/-- Phase of one worker thread, following the loop body in `Worker::new`
(src/lib.rs lines 60–71):
* `toLock`: at the top of the loop, about to call `receiver.lock()`;
* `recving`: holds the mutex and is inside `recv()` (the lock guard is a
  temporary of the `let message = ...` statement, so it is held exactly
  while `recv()` runs — including while `recv()` blocks);
* `runJob j`: the guard has been dropped and the worker is executing job
  `j` (the `Ok(job) => job()` arm);
* `done`: `recv()` returned `Err` and the loop was exited with `break` —
  the thread has terminated normally;
* `panicked`: the job's body panicked; the unwind terminated this worker
  thread abnormally. -/
inductive WPhase where
  | toLock
  | recving
  | runJob (j : Job)
  | done
  | panicked
deriving DecidableEq, Repr

/-- A worker thread has terminated (its closure — and hence its clone of
the `Arc<Mutex<Receiver>>` — has been dropped). -/
def WPhase.terminal : WPhase → Bool
  | .done => true
  | .panicked => true
  | _ => false

/-- Phase of the main thread that owns the pool:
* `using`: the pool is alive; `sender` is `Some` and `execute` may be called;
* `joining k`: `Drop` has run `drop(self.sender.take())` and has already
  joined the workers `0 .. k-1`; it is now at worker `k` of the join loop;
* `dropped`: the join loop finished; `Drop` returned;
* `panickedMain k`: `thread.join().unwrap()` panicked while joining worker
  `k`, because that worker's thread was terminated by a panic. -/
inductive MainPhase where
  | live
  | joining (k : Nat)
  | dropped
  | panickedMain (k : Nat)
deriving DecidableEq, Repr

/-- Global state of the pool system: the phase of every worker thread (in
construction order), the FIFO backlog of the `mpsc` channel, the phase of
the main thread, and two history variables — every job ever submitted by
`execute` and the identity of every job body that has been run. -/
structure Sys where
  phases : List WPhase
  queue : List Job
  main : MainPhase
  submitted : List Job
  executed : List Nat
deriving DecidableEq, Repr

/-- The shared consumer handle (`Arc<Mutex<mpsc::Receiver<Job>>>`) is still
alive: some worker thread has not terminated.  Each worker's closure owns
one clone of the `Arc`; the original created in `new` is dropped when `new`
returns, so the receiver is dropped exactly when the last worker thread
terminates. -/
def receiverAlive (S : Sys) : Bool :=
  S.phases.any (fun ph => !ph.terminal)

/-- The panics the pool's own code can raise. -/
inductive Panic where
  | assertFailed
  | unwrapNone
  | sendFailed
  | joinFailed
deriving DecidableEq, Repr

/-- Outcome of `ThreadPool::execute` (src/lib.rs lines 32–39) in state `S`:
`self.sender.as_ref().unwrap()` panics if the sender has been taken
(`main ≠ using`); otherwise `send(job)` succeeds iff the receiver is still
alive, and `.unwrap()` on the send result panics otherwise.  `send` itself
never blocks (the channel is unbounded). -/
def Sys.execOutcome (S : Sys) (j : Job) : Except Panic Sys :=
  match S.main with
  | .live =>
      if receiverAlive S then
        .ok { S with queue := S.queue ++ [j], submitted := S.submitted ++ [j] }
      else
        .error .sendFailed
  | _ => .error .unwrapNone

/-- One interleaving step of the system.  Worker steps follow
`Worker::new`'s loop (lines 60–71); main-thread steps follow
`ThreadPool::execute` (lines 32–39) and `Drop for ThreadPool`
(lines 42–52). -/
inductive Step : Sys → Sys → Prop where
  /-- The main thread calls `execute` and it returns normally. -/
  | execute {S S' : Sys} (j : Job) (h : S.execOutcome j = .ok S') : Step S S'
  /-- Worker `i` acquires the mutex around the receiver; possible only
  when no other worker holds it. -/
  | acquire (S : Sys) (i : Nat)
      (hi : S.phases[i]? = some .toLock)
      (hfree : ∀ k : Nat, S.phases[k]? ≠ some WPhase.recving) :
      Step S { S with phases := S.phases.set i .recving }
  /-- `recv()` returns `Ok(job)` with the head of the FIFO backlog; the
  lock guard is dropped at the end of the `let` statement, before the job
  body runs. -/
  | recvOk (S : Sys) (i : Nat) (j : Job) (rest : List Job)
      (hi : S.phases[i]? = some .recving) (hq : S.queue = j :: rest) :
      Step S { S with phases := S.phases.set i (.runJob j), queue := rest }
  /-- `recv()` returns `Err`: possible exactly when the backlog is empty
  and the sender has been dropped; the worker prints and `break`s. -/
  | recvErr (S : Sys) (i : Nat)
      (hi : S.phases[i]? = some .recving) (hq : S.queue = [])
      (hs : S.main ≠ MainPhase.live) :
      Step S { S with phases := S.phases.set i .done }
  /-- `job()` runs to completion; the worker loops back to the top. -/
  | runOk (S : Sys) (i : Nat) (j : Job)
      (hi : S.phases[i]? = some (.runJob j)) (hp : j.panics = false) :
      Step S { S with phases := S.phases.set i .toLock,
                      executed := S.executed ++ [j.id] }
  /-- `job()` panics; the unwind terminates this worker thread. -/
  | runPanic (S : Sys) (i : Nat) (j : Job)
      (hi : S.phases[i]? = some (.runJob j)) (hp : j.panics = true) :
      Step S { S with phases := S.phases.set i .panicked,
                      executed := S.executed ++ [j.id] }
  /-- `Drop` begins: `drop(self.sender.take())` closes the channel to new
  entries; the join loop starts at worker `0`. -/
  | dropStart (S : Sys) (h : S.main = .live) :
      Step S { S with main := .joining 0 }
  /-- `thread.join()` on worker `k` returns `Ok` — possible only once that
  worker's thread has terminated, and here only normally. -/
  | joinOk (S : Sys) (k : Nat) (hm : S.main = .joining k)
      (hk : S.phases[k]? = some .done) :
      Step S { S with main := .joining (k + 1) }
  /-- `thread.join()` on worker `k` returns `Err` because that thread was
  terminated by a panic; `.unwrap()` panics inside `Drop`. -/
  | joinPanic (S : Sys) (k : Nat) (hm : S.main = .joining k)
      (hk : S.phases[k]? = some .panicked) :
      Step S { S with main := .panickedMain k }
  /-- The join loop has passed every worker; `Drop` returns. -/
  | dropFinish (S : Sys) (k : Nat) (hm : S.main = .joining k)
      (hk : S.phases.length ≤ k) :
      Step S { S with main := .dropped }

/-- State of the system immediately after `ThreadPool::new(n)` returns
(for `n > 0`): all `n` worker threads have been spawned and sit at the top
of their loop, the channel is empty, and the pool owns the sender. -/
def init (n : Nat) : Sys :=
  { phases := List.replicate n .toLock
    queue := []
    main := .live
    submitted := []
    executed := [] }

/-- Reachability from the freshly constructed pool with `n` workers. -/
def Reachable (n : Nat) (S : Sys) : Prop :=
  Relation.ReflTransGen Step (init n) S

/-! ### The pure layer: the `ThreadPool` struct's fields -/

/-- The fields of the `ThreadPool` struct (src/lib.rs lines 6–9) together
with each worker's `thread: Option<JoinHandle<()>>` field: `workers`
records, per worker, whether its join handle is still present, and
`sender` whether the producer handle is still present. -/
structure PoolSt where
  workers : List (Option Unit)
  sender : Option Unit
deriving DecidableEq, Repr

/-- `ThreadPool::new` (src/lib.rs lines 14–30): `assert!(size > 0)`, then
build `size` workers (each holding its spawned thread's handle) and store
the sender. -/
def ThreadPool.new (size : Nat) : Except Panic PoolSt :=
  if 0 < size then
    .ok { workers := List.replicate size (some ()), sender := some () }
  else
    .error .assertFailed

/-- `ThreadPool::execute` as it acts on the struct fields: it takes
`&self`, so on the non-panicking path the pool is returned unchanged.
`receiverAlive` abstracts whether the consumer side of the channel still
exists (cf. `Threadpool.receiverAlive` in the system layer). -/
def PoolSt.executeOutcome (p : PoolSt) (receiverAlive : Bool) :
    Except Panic PoolSt :=
  match p.sender with
  | none => .error .unwrapNone
  | some _ => if receiverAlive then .ok p else .error .sendFailed

/-- The join loop of `Drop for ThreadPool` (src/lib.rs lines 46–50) over
the list of workers starting at index `i`: `worker.thread.take()` empties
the handle slot, and `join().unwrap()` panics iff that worker's thread was
terminated by a panic (`panickedW`). -/
def joinLoop (panickedW : Nat → Bool) :
    Nat → List (Option Unit) → Except Panic (List (Option Unit))
  | _, [] => .ok []
  | i, w :: ws =>
      match w with
      | some _ =>
          if panickedW i then .error .joinFailed
          else (joinLoop panickedW (i + 1) ws).map (fun ws' => none :: ws')
      | none => (joinLoop panickedW (i + 1) ws).map (fun ws' => none :: ws')

/-- `Drop for ThreadPool` (src/lib.rs lines 42–52): take and drop the
sender, then run the join loop over the workers in construction order. -/
def PoolSt.dropRun (p : PoolSt) (panickedW : Nat → Bool) :
    Except Panic PoolSt :=
  (joinLoop panickedW 0 p.workers).map
    (fun ws => { workers := ws, sender := none })

/-! ### Accounting definitions used by the invariants -/

/-- The job identity a worker in phase `ph` is currently holding (a job
that has been dequeued but whose run step has not yet been taken). -/
def phMult : WPhase → Multiset Nat
  | .runJob j => {j.id}
  | _ => 0

/-- Identities of all jobs ever submitted through `execute`. -/
def submittedIds (S : Sys) : Multiset Nat :=
  ↑(S.submitted.map Job.id)

/-- Identities of all job bodies that have been run (each occurrence of an
identity is one run of a job with that identity). -/
def executedIds (S : Sys) : Multiset Nat :=
  ↑S.executed

/-- Identities of the jobs sitting in the channel's backlog. -/
def queuedIds (S : Sys) : Multiset Nat :=
  ↑(S.queue.map Job.id)

/-- Identities of the jobs currently held by some worker. -/
def heldIds (S : Sys) : Multiset Nat :=
  (S.phases.map phMult).sum

/-- The inductive invariant of the pool system, established at `init n`
and preserved by every `Step`. -/
structure Good (n : Nat) (S : Sys) : Prop where
  len : S.phases.length = n
  conserve : submittedIds S = executedIds S + queuedIds S + heldIds S
  noDoneWhileUsing : S.main = MainPhase.live →
    ∀ i : Nat, S.phases[i]? ≠ some WPhase.done
  queueNilOfDone : ∀ i : Nat,
    S.phases[i]? = some WPhase.done → S.queue = []
  heldSubmitted : ∀ (i : Nat) (j : Job),
    S.phases[i]? = some (WPhase.runJob j) → j ∈ S.submitted
  queueSubmitted : ∀ j : Job, j ∈ S.queue → j ∈ S.submitted
  panickedSubmitted : ∀ i : Nat, S.phases[i]? = some WPhase.panicked →
    ∃ j ∈ S.submitted, j.panics = true
  joinDone : ∀ k : Nat, S.main = MainPhase.joining k →
    k ≤ n ∧ ∀ i : Nat, i < k → S.phases[i]? = some WPhase.done
  panickedMainPanicked : ∀ k : Nat, S.main = MainPhase.panickedMain k →
    S.phases[k]? = some WPhase.panicked
  droppedAllDone : S.main = MainPhase.dropped →
    ∀ i : Nat, i < n → S.phases[i]? = some WPhase.done
  mutex : ∀ i k : Nat, S.phases[i]? = some WPhase.recving →
    S.phases[k]? = some WPhase.recving → i = k

/-- The transition structure of a single worker thread, read off the loop
body of `Worker::new` (src/lib.rs lines 60–71): lock, receive (a job or
the closed signal), run the job (returning to the loop top, or dying on a
panic).  `done` and `panicked` have no outgoing transitions. -/
inductive WStep : WPhase → WPhase → Prop where
  | acquire : WStep .toLock .recving
  | recvOk (j : Job) : WStep .recving (.runJob j)
  | recvErr : WStep .recving .done
  | runOk (j : Job) (h : j.panics = false) : WStep (.runJob j) .toLock
  | runPanic (j : Job) (h : j.panics = true) : WStep (.runJob j) .panicked

/-! ### Concrete jobs and states used in counterexamples and witnesses -/

/-- A job whose body panics. -/
def jobPn : Job := ⟨1, true⟩

/-- A job whose body runs to completion. -/
def jobOk : Job := ⟨2, false⟩

/-- Pool of two workers after: `execute(jobPn); execute(jobOk)`; worker 0
dequeued and ran `jobPn` (and died of its panic), worker 1 dequeued and
ran `jobOk`; the pool was dropped; worker 1 saw the closed channel and
exited; and `Drop`'s `thread.join().unwrap()` on worker 0 panicked. -/
def dropCrashSt : Sys :=
  { phases := [.panicked, .done]
    queue := []
    main := .panickedMain 0
    submitted := [jobPn, jobOk]
    executed := [1, 2] }

/-- Pool of one worker after its only worker ran a panicking job: every
consumer-side handle is gone although the pool still owns the sender. -/
def oneDeadSt : Sys :=
  { phases := [.panicked]
    queue := []
    main := .live
    submitted := [jobPn]
    executed := [1] }

/-- A job with identity 3 that runs to completion. -/
def jobOk3 : Job := ⟨3, false⟩

/-- Pool of two workers in which both workers are executing jobs at the
same time (each dequeued under the lock, then released it). -/
def bothRunSt : Sys :=
  { phases := [.runJob jobOk, .runJob jobOk3]
    queue := []
    main := .live
    submitted := [jobOk, jobOk3]
    executed := [] }

/-- Pool of two workers in which worker 0 holds the lock and is inside
`recv()` while worker 1 is still heading for the lock. -/
def lockSt : Sys :=
  { phases := [.recving, .toLock]
    queue := [jobOk, jobOk3]
    main := .live
    submitted := [jobOk, jobOk3]
    executed := [] }

/-- A job with identity 5 that runs to completion. -/
def jobOk5 : Job := ⟨5, false⟩

/-- Pool of one worker after a full life cycle: one job submitted and run,
pool dropped, worker joined, `Drop` returned. -/
def doneSt : Sys :=
  { phases := [.done]
    queue := []
    main := .dropped
    submitted := [jobOk5]
    executed := [5] }

/-- The state just before `doneSt`: `Drop`'s join loop has joined worker 0
and stands past the end of the worker list. -/
def joiningSt : Sys :=
  { phases := [.done]
    queue := []
    main := .joining 1
    submitted := [jobOk5]
    executed := [5] }

/-! ### Helper lemmas -/

/-- Index bound extracted from a successful list lookup. -/
theorem lt_of_lookup {α : Type} {l : List α} {i : Nat} {a : α}
    (h : l[i]? = some a) : i < l.length :=
  (List.getElem?_eq_some.mp h).1

/-- Lookup in a list updated at an index that is known to be in bounds. -/
theorem set_lookup {l : List WPhase} {i : Nat} {old : WPhase}
    (h : l[i]? = some old) (a : WPhase) (k : Nat) :
    (l.set i a)[k]? = if i = k then some a else l[k]? := by
  have hlt : i < l.length := lt_of_lookup h
  rw [List.getElem?_set]
  by_cases hik : i = k
  · subst hik
    simp [hlt]
  · simp [hik]

/-- No out-of-the-blue `recving` lookup in a list that does not contain
`recving` — used to discharge the mutex-free premise on concrete states. -/
theorem no_recving {l : List WPhase} (h : WPhase.recving ∉ l) :
    ∀ k : Nat, l[k]? ≠ some WPhase.recving := by
  intro k hk
  exact h (List.getElem?_mem hk)

/-- Replacing the element at an in-bounds index, accounted additively:
the new sum plus the old element's contribution equals the old sum plus
the new element's contribution. -/
theorem sum_map_set (g : WPhase → Multiset Nat) :
    ∀ (l : List WPhase) (i : Nat) (a b : WPhase), l[i]? = some b →
      ((l.set i a).map g).sum + g b = (l.map g).sum + g a := by
  intro l
  induction l with
  | nil =>
    intro i a b hb
    simp at hb
  | cons hd tl ih =>
    intro i a b hb
    cases i with
    | zero =>
      simp only [List.getElem?_cons_zero, Option.some_inj] at hb
      subst hb
      simp only [List.set_cons_zero, List.map_cons, List.sum_cons]
      abel
    | succ m =>
      simp only [List.getElem?_cons_succ] at hb
      simp only [List.set_cons_succ, List.map_cons, List.sum_cons]
      rw [add_assoc, ih m a b hb, ← add_assoc]

/-- Characterisation of the successful path of `execute`: it requires the
pool to own the sender and the receiver to be alive, and then appends the
job to the backlog. -/
theorem execOutcome_ok_iff {S : Sys} {j : Job} {S' : Sys} :
    S.execOutcome j = .ok S' ↔
      S.main = MainPhase.live ∧ receiverAlive S = true ∧
        S' = { S with queue := S.queue ++ [j],
                      submitted := S.submitted ++ [j] } := by
  cases hm : S.main with
  | live =>
    by_cases ha : receiverAlive S
    · simp [Sys.execOutcome, hm, ha, eq_comm]
    · simp [Sys.execOutcome, hm, ha]
  | joining k => simp [Sys.execOutcome, hm]
  | dropped => simp [Sys.execOutcome, hm]
  | panickedMain k => simp [Sys.execOutcome, hm]

/-- Lookup into the phases of the freshly constructed pool. -/
theorem init_lookup (n i : Nat) :
    (init n).phases[i]? = if i < n then some WPhase.toLock else none := by
  simp [init, List.getElem?_replicate]

/-- The invariant holds right after construction. -/
theorem good_init (n : Nat) : Good n (init n) := by
  refine ⟨?_, ?_, ?_, ?_, ?_, ?_, ?_, ?_, ?_, ?_, ?_⟩
  · simp [init]
  · simp [submittedIds, executedIds, queuedIds, heldIds, init, phMult]
  · intro _ i h
    rw [init_lookup] at h
    split at h <;> simp_all
  · intro i h
    rw [init_lookup] at h
    split at h <;> simp_all
  · intro i j h
    rw [init_lookup] at h
    split at h <;> simp_all
  · intro j h
    simp [init] at h
  · intro i h
    rw [init_lookup] at h
    split at h <;> simp_all
  · intro k hk
    simp [init] at hk
  · intro k hk
    simp [init] at hk
  · intro h
    simp [init] at h
  · intro i k hi hk
    rw [init_lookup] at hi
    split at hi <;> simp_all

/-- The invariant is preserved by every step of the system. -/
theorem good_step {n : Nat} {S S' : Sys} (G : Good n S) (st : Step S S') :
    Good n S' := by
  cases st with
  | execute j h =>
    rcases execOutcome_ok_iff.mp h with ⟨hm, halive, rfl⟩
    refine ⟨?_, ?_, ?_, ?_, ?_, ?_, ?_, ?_, ?_, ?_, ?_⟩
    · exact G.len
    · have hc := G.conserve
      simp only [submittedIds, executedIds, queuedIds, heldIds] at hc ⊢
      simp only [List.map_append, List.map_cons, List.map_nil]
      rw [← Multiset.coe_add, ← Multiset.coe_add, hc]
      abel
    · intro h' i
      exact G.noDoneWhileUsing h' i
    · intro i hdone
      exact absurd hdone (G.noDoneWhileUsing hm i)
    · intro i j' hj'
      exact List.mem_append_left _ (G.heldSubmitted i j' hj')
    · intro j' hj'
      rcases List.mem_append.mp hj' with h1 | h1
      · exact List.mem_append_left _ (G.queueSubmitted j' h1)
      · exact List.mem_append_right _ h1
    · intro i hp
      obtain ⟨j', hj', hjp⟩ := G.panickedSubmitted i hp
      exact ⟨j', List.mem_append_left _ hj', hjp⟩
    · intro k hk
      have hk' : S.main = MainPhase.joining k := hk
      rw [hm] at hk'
      exact absurd hk' (by simp)
    · intro k hk
      have hk' : S.main = MainPhase.panickedMain k := hk
      rw [hm] at hk'
      exact absurd hk' (by simp)
    · intro h'
      have h2 : S.main = MainPhase.dropped := h'
      rw [hm] at h2
      exact absurd h2 (by simp)
    · exact G.mutex
  | acquire i hi hfree =>
    have hset : ∀ k : Nat, (S.phases.set i WPhase.recving)[k]?
        = if i = k then some WPhase.recving else S.phases[k]? :=
      set_lookup hi WPhase.recving
    refine ⟨?_, ?_, ?_, ?_, ?_, ?_, ?_, ?_, ?_, ?_, ?_⟩
    · simp [List.length_set, G.len]
    · have hheld : ((S.phases.set i WPhase.recving).map phMult).sum
          = (S.phases.map phMult).sum := by
        have h := sum_map_set phMult S.phases i WPhase.recving WPhase.toLock hi
        simpa [phMult] using h
      have hc := G.conserve
      simp only [submittedIds, executedIds, queuedIds, heldIds] at hc ⊢
      rw [hheld]
      exact hc
    · intro h' i'
      rw [hset i']
      split
      · simp
      · exact G.noDoneWhileUsing h' i'
    · intro i' h
      rw [hset i'] at h
      split at h
      · simp at h
      · exact G.queueNilOfDone i' h
    · intro i' j' h
      rw [hset i'] at h
      split at h
      · simp at h
      · exact G.heldSubmitted i' j' h
    · exact G.queueSubmitted
    · intro i' h
      rw [hset i'] at h
      split at h
      · simp at h
      · exact G.panickedSubmitted i' h
    · intro k hk
      have hk' : S.main = MainPhase.joining k := hk
      obtain ⟨hkn, hdone⟩ := G.joinDone k hk'
      refine ⟨hkn, fun i' hi' => ?_⟩
      have hd := hdone i' hi'
      rw [hset i']
      split
      next heq =>
        rw [← heq, hi] at hd
        simp at hd
      next => exact hd
    · intro k hk
      have hk' : S.main = MainPhase.panickedMain k := hk
      have hp := G.panickedMainPanicked k hk'
      rw [hset k]
      split
      next heq =>
        rw [← heq, hi] at hp
        simp at hp
      next => exact hp
    · intro h' i' hi'
      have h2 : S.main = MainPhase.dropped := h'
      have hd := G.droppedAllDone h2 i' hi'
      rw [hset i']
      split
      next heq =>
        rw [← heq, hi] at hd
        simp at hd
      next => exact hd
    · intro a b ha hb
      rw [hset a] at ha
      rw [hset b] at hb
      split at ha
      next hia =>
        split at hb
        next hib => omega
        next hib => exact absurd hb (hfree b)
      next hia => exact absurd ha (hfree a)
  | recvOk i j rest hi hq =>
    have hset : ∀ k : Nat, (S.phases.set i (WPhase.runJob j))[k]?
        = if i = k then some (WPhase.runJob j) else S.phases[k]? :=
      set_lookup hi (WPhase.runJob j)
    refine ⟨?_, ?_, ?_, ?_, ?_, ?_, ?_, ?_, ?_, ?_, ?_⟩
    · simp [List.length_set, G.len]
    · have hheld : ((S.phases.set i (WPhase.runJob j)).map phMult).sum
          = (S.phases.map phMult).sum + {j.id} := by
        have h := sum_map_set phMult S.phases i (WPhase.runJob j)
          WPhase.recving hi
        simpa [phMult] using h
      have hc := G.conserve
      simp only [submittedIds, executedIds, queuedIds, heldIds] at hc ⊢
      rw [hq] at hc
      simp only [List.map_cons] at hc
      rw [← Multiset.cons_coe, ← Multiset.singleton_add] at hc
      rw [hheld, hc]
      abel
    · intro h' i'
      rw [hset i']
      split
      · simp
      · exact G.noDoneWhileUsing h' i'
    · intro i' h
      rw [hset i'] at h
      split at h
      · simp at h
      · have h2 := G.queueNilOfDone i' h
        rw [hq] at h2
        simp at h2
    · intro i' j' h
      rw [hset i'] at h
      split at h
      next =>
        have hj : j = j' := by simpa using h
        subst hj
        exact G.queueSubmitted j (by rw [hq]; exact List.mem_cons_self j rest)
      next => exact G.heldSubmitted i' j' h
    · intro j' h
      exact G.queueSubmitted j' (by rw [hq]; exact List.mem_cons_of_mem _ h)
    · intro i' h
      rw [hset i'] at h
      split at h
      · simp at h
      · exact G.panickedSubmitted i' h
    · intro k hk
      have hk' : S.main = MainPhase.joining k := hk
      obtain ⟨hkn, hdone⟩ := G.joinDone k hk'
      refine ⟨hkn, fun i' hi' => ?_⟩
      have hd := hdone i' hi'
      rw [hset i']
      split
      next heq =>
        rw [← heq, hi] at hd
        simp at hd
      next => exact hd
    · intro k hk
      have hk' : S.main = MainPhase.panickedMain k := hk
      have hp := G.panickedMainPanicked k hk'
      rw [hset k]
      split
      next heq =>
        rw [← heq, hi] at hp
        simp at hp
      next => exact hp
    · intro h' i' hi'
      have h2 : S.main = MainPhase.dropped := h'
      have hd := G.droppedAllDone h2 i' hi'
      rw [hset i']
      split
      next heq =>
        rw [← heq, hi] at hd
        simp at hd
      next => exact hd
    · intro a b ha hb
      rw [hset a] at ha
      rw [hset b] at hb
      split at ha
      next => simp at ha
      next =>
        split at hb
        next => simp at hb
        next => exact G.mutex a b ha hb
  | recvErr i hi hq hs =>
    have hset : ∀ k : Nat, (S.phases.set i WPhase.done)[k]?
        = if i = k then some WPhase.done else S.phases[k]? :=
      set_lookup hi WPhase.done
    refine ⟨?_, ?_, ?_, ?_, ?_, ?_, ?_, ?_, ?_, ?_, ?_⟩
    · simp [List.length_set, G.len]
    · have hheld : ((S.phases.set i WPhase.done).map phMult).sum
          = (S.phases.map phMult).sum := by
        have h := sum_map_set phMult S.phases i WPhase.done WPhase.recving hi
        simpa [phMult] using h
      have hc := G.conserve
      simp only [submittedIds, executedIds, queuedIds, heldIds] at hc ⊢
      rw [hheld]
      exact hc
    · intro h'
      have h2 : S.main = MainPhase.live := h'
      exact absurd h2 hs
    · intro _ _
      exact hq
    · intro i' j' h
      rw [hset i'] at h
      split at h
      · simp at h
      · exact G.heldSubmitted i' j' h
    · exact G.queueSubmitted
    · intro i' h
      rw [hset i'] at h
      split at h
      · simp at h
      · exact G.panickedSubmitted i' h
    · intro k hk
      have hk' : S.main = MainPhase.joining k := hk
      obtain ⟨hkn, hdone⟩ := G.joinDone k hk'
      refine ⟨hkn, fun i' hi' => ?_⟩
      rw [hset i']
      split
      next => rfl
      next => exact hdone i' hi'
    · intro k hk
      have hk' : S.main = MainPhase.panickedMain k := hk
      have hp := G.panickedMainPanicked k hk'
      rw [hset k]
      split
      next heq =>
        rw [← heq, hi] at hp
        simp at hp
      next => exact hp
    · intro h' i' hi'
      have h2 : S.main = MainPhase.dropped := h'
      have hd := G.droppedAllDone h2 i' hi'
      rw [hset i']
      split
      next => rfl
      next => exact hd
    · intro a b ha hb
      rw [hset a] at ha
      rw [hset b] at hb
      split at ha
      next => simp at ha
      next =>
        split at hb
        next => simp at hb
        next => exact G.mutex a b ha hb
  | runOk i j hi hp =>
    have hset : ∀ k : Nat, (S.phases.set i WPhase.toLock)[k]?
        = if i = k then some WPhase.toLock else S.phases[k]? :=
      set_lookup hi WPhase.toLock
    refine ⟨?_, ?_, ?_, ?_, ?_, ?_, ?_, ?_, ?_, ?_, ?_⟩
    · simp [List.length_set, G.len]
    · have hheld : (S.phases.map phMult).sum
          = ((S.phases.set i WPhase.toLock).map phMult).sum + {j.id} := by
        have h := sum_map_set phMult S.phases i WPhase.toLock
          (WPhase.runJob j) hi
        simpa [phMult] using h.symm
      have hc := G.conserve
      simp only [submittedIds, executedIds, queuedIds, heldIds] at hc ⊢
      rw [hheld] at hc
      rw [← Multiset.coe_add, Multiset.coe_singleton, hc]
      abel
    · intro h' i'
      rw [hset i']
      split
      · simp
      · exact G.noDoneWhileUsing h' i'
    · intro i' h
      rw [hset i'] at h
      split at h
      · simp at h
      · exact G.queueNilOfDone i' h
    · intro i' j' h
      rw [hset i'] at h
      split at h
      · simp at h
      · exact G.heldSubmitted i' j' h
    · exact G.queueSubmitted
    · intro i' h
      rw [hset i'] at h
      split at h
      · simp at h
      · exact G.panickedSubmitted i' h
    · intro k hk
      have hk' : S.main = MainPhase.joining k := hk
      obtain ⟨hkn, hdone⟩ := G.joinDone k hk'
      refine ⟨hkn, fun i' hi' => ?_⟩
      have hd := hdone i' hi'
      rw [hset i']
      split
      next heq =>
        rw [← heq, hi] at hd
        simp at hd
      next => exact hd
    · intro k hk
      have hk' : S.main = MainPhase.panickedMain k := hk
      have hp2 := G.panickedMainPanicked k hk'
      rw [hset k]
      split
      next heq =>
        rw [← heq, hi] at hp2
        simp at hp2
      next => exact hp2
    · intro h' i' hi'
      have h2 : S.main = MainPhase.dropped := h'
      have hd := G.droppedAllDone h2 i' hi'
      rw [hset i']
      split
      next heq =>
        rw [← heq, hi] at hd
        simp at hd
      next => exact hd
    · intro a b ha hb
      rw [hset a] at ha
      rw [hset b] at hb
      split at ha
      next => simp at ha
      next =>
        split at hb
        next => simp at hb
        next => exact G.mutex a b ha hb
  | runPanic i j hi hp =>
    have hset : ∀ k : Nat, (S.phases.set i WPhase.panicked)[k]?
        = if i = k then some WPhase.panicked else S.phases[k]? :=
      set_lookup hi WPhase.panicked
    refine ⟨?_, ?_, ?_, ?_, ?_, ?_, ?_, ?_, ?_, ?_, ?_⟩
    · simp [List.length_set, G.len]
    · have hheld : (S.phases.map phMult).sum
          = ((S.phases.set i WPhase.panicked).map phMult).sum + {j.id} := by
        have h := sum_map_set phMult S.phases i WPhase.panicked
          (WPhase.runJob j) hi
        simpa [phMult] using h.symm
      have hc := G.conserve
      simp only [submittedIds, executedIds, queuedIds, heldIds] at hc ⊢
      rw [hheld] at hc
      rw [← Multiset.coe_add, Multiset.coe_singleton, hc]
      abel
    · intro h' i'
      rw [hset i']
      split
      · simp
      · exact G.noDoneWhileUsing h' i'
    · intro i' h
      rw [hset i'] at h
      split at h
      · simp at h
      · exact G.queueNilOfDone i' h
    · intro i' j' h
      rw [hset i'] at h
      split at h
      · simp at h
      · exact G.heldSubmitted i' j' h
    · exact G.queueSubmitted
    · intro i' h
      rw [hset i'] at h
      split at h
      next => exact ⟨j, G.heldSubmitted i j hi, hp⟩
      next => exact G.panickedSubmitted i' h
    · intro k hk
      have hk' : S.main = MainPhase.joining k := hk
      obtain ⟨hkn, hdone⟩ := G.joinDone k hk'
      refine ⟨hkn, fun i' hi' => ?_⟩
      have hd := hdone i' hi'
      rw [hset i']
      split
      next heq =>
        rw [← heq, hi] at hd
        simp at hd
      next => exact hd
    · intro k hk
      have hk' : S.main = MainPhase.panickedMain k := hk
      have hp2 := G.panickedMainPanicked k hk'
      rw [hset k]
      split
      next => rfl
      next => exact hp2
    · intro h' i' hi'
      have h2 : S.main = MainPhase.dropped := h'
      have hd := G.droppedAllDone h2 i' hi'
      rw [hset i']
      split
      next heq =>
        rw [← heq, hi] at hd
        simp at hd
      next => exact hd
    · intro a b ha hb
      rw [hset a] at ha
      rw [hset b] at hb
      split at ha
      next => simp at ha
      next =>
        split at hb
        next => simp at hb
        next => exact G.mutex a b ha hb
  | dropStart h =>
    refine ⟨G.len, G.conserve, ?_, G.queueNilOfDone, G.heldSubmitted,
      G.queueSubmitted, G.panickedSubmitted, ?_, ?_, ?_, G.mutex⟩
    · intro h' _
      simp at h'
    · intro k hk
      have hk' : MainPhase.joining 0 = MainPhase.joining k := hk
      have h0 : 0 = k := by simpa using hk'
      subst h0
      exact ⟨Nat.zero_le n, fun i hi => absurd hi (Nat.not_lt_zero i)⟩
    · intro k hk
      simp at hk
    · intro h'
      simp at h'
  | joinOk k hm hk =>
    refine ⟨G.len, G.conserve, ?_, G.queueNilOfDone, G.heldSubmitted,
      G.queueSubmitted, G.panickedSubmitted, ?_, ?_, ?_, G.mutex⟩
    · intro h' _
      simp at h'
    · intro k' hk'
      have hk2 : MainPhase.joining (k + 1) = MainPhase.joining k' := hk'
      have hkk : k + 1 = k' := by simpa using hk2
      subst hkk
      obtain ⟨hkn, hdone⟩ := G.joinDone k hm
      have hklt : k < n := by
        have hlen := lt_of_lookup hk
        rwa [G.len] at hlen
      refine ⟨hklt, fun i hi => ?_⟩
      rcases Nat.lt_succ_iff_lt_or_eq.mp hi with h1 | h1
      · exact hdone i h1
      · subst h1
        exact hk
    · intro k' hk'
      simp at hk'
    · intro h'
      simp at h'
  | joinPanic k hm hk =>
    refine ⟨G.len, G.conserve, ?_, G.queueNilOfDone, G.heldSubmitted,
      G.queueSubmitted, G.panickedSubmitted, ?_, ?_, ?_, G.mutex⟩
    · intro h' _
      simp at h'
    · intro k' hk'
      simp at hk'
    · intro k' hk'
      have hk2 : MainPhase.panickedMain k = MainPhase.panickedMain k' := hk'
      have hkk : k = k' := by simpa using hk2
      subst hkk
      exact hk
    · intro h'
      simp at h'
  | dropFinish k hm hk =>
    refine ⟨G.len, G.conserve, ?_, G.queueNilOfDone, G.heldSubmitted,
      G.queueSubmitted, G.panickedSubmitted, ?_, ?_, ?_, G.mutex⟩
    · intro h' _
      simp at h'
    · intro k' hk'
      simp at hk'
    · intro k' hk'
      simp at hk'
    · intro _ i hi
      obtain ⟨hkn, hdone⟩ := G.joinDone k hm
      have hlen := G.len
      exact hdone i (by omega)

/-- Every reachable state satisfies the invariant. -/
theorem good_reachable {n : Nat} {S : Sys} (h : Reachable n S) : Good n S := by
  induction h with
  | refl => exact good_init n
  | tail _ hstep ih => exact good_step ih hstep

/-! ### Concrete executions -/

/-- One worker; its only job panics; afterwards the pool is still alive
but no consumer handle remains. -/
theorem reach_oneDeadSt : Reachable 1 oneDeadSt := by
  have h0 : Reachable 1 (init 1) := Relation.ReflTransGen.refl
  have h1 : Reachable 1
      { phases := [WPhase.toLock], queue := [jobPn], main := MainPhase.live,
        submitted := [jobPn], executed := [] } :=
    h0.tail (Step.execute jobPn rfl)
  have h2 : Reachable 1
      { phases := [WPhase.recving], queue := [jobPn], main := MainPhase.live,
        submitted := [jobPn], executed := [] } :=
    h1.tail (Step.acquire _ 0 rfl (no_recving (by decide)))
  have h3 : Reachable 1
      { phases := [WPhase.runJob jobPn], queue := [], main := MainPhase.live,
        submitted := [jobPn], executed := [] } :=
    h2.tail (Step.recvOk _ 0 jobPn [] rfl rfl)
  exact h3.tail (Step.runPanic _ 0 jobPn rfl rfl)

/-- Two workers; two jobs; worker 0 is inside `recv()` under the lock. -/
theorem reach_lockSt : Reachable 2 lockSt := by
  have h0 : Reachable 2 (init 2) := Relation.ReflTransGen.refl
  have h1 : Reachable 2
      { phases := [WPhase.toLock, WPhase.toLock], queue := [jobOk],
        main := MainPhase.live, submitted := [jobOk], executed := [] } :=
    h0.tail (Step.execute jobOk rfl)
  have h2 : Reachable 2
      { phases := [WPhase.toLock, WPhase.toLock], queue := [jobOk, jobOk3],
        main := MainPhase.live, submitted := [jobOk, jobOk3],
        executed := [] } :=
    h1.tail (Step.execute jobOk3 rfl)
  exact h2.tail (Step.acquire _ 0 rfl (no_recving (by decide)))

/-- Continuation of `reach_lockSt`: both workers end up executing their
jobs at the same time. -/
theorem reach_bothRunSt : Reachable 2 bothRunSt := by
  have h3 : Reachable 2
      { phases := [WPhase.runJob jobOk, WPhase.toLock], queue := [jobOk3],
        main := MainPhase.live, submitted := [jobOk, jobOk3],
        executed := [] } :=
    reach_lockSt.tail (Step.recvOk _ 0 jobOk [jobOk3] rfl rfl)
  have h4 : Reachable 2
      { phases := [WPhase.runJob jobOk, WPhase.recving], queue := [jobOk3],
        main := MainPhase.live, submitted := [jobOk, jobOk3],
        executed := [] } :=
    h3.tail (Step.acquire _ 1 rfl (no_recving (by decide)))
  exact h4.tail (Step.recvOk _ 1 jobOk3 [] rfl rfl)

/-- One worker; one job runs to completion; the pool is dropped; the join
loop has joined the worker and stands past the end of the worker list. -/
theorem reach_joiningSt : Reachable 1 joiningSt := by
  have h0 : Reachable 1 (init 1) := Relation.ReflTransGen.refl
  have h1 : Reachable 1
      { phases := [WPhase.toLock], queue := [jobOk5], main := MainPhase.live,
        submitted := [jobOk5], executed := [] } :=
    h0.tail (Step.execute jobOk5 rfl)
  have h2 : Reachable 1
      { phases := [WPhase.recving], queue := [jobOk5],
        main := MainPhase.live, submitted := [jobOk5], executed := [] } :=
    h1.tail (Step.acquire _ 0 rfl (no_recving (by decide)))
  have h3 : Reachable 1
      { phases := [WPhase.runJob jobOk5], queue := [],
        main := MainPhase.live, submitted := [jobOk5], executed := [] } :=
    h2.tail (Step.recvOk _ 0 jobOk5 [] rfl rfl)
  have h4 : Reachable 1
      { phases := [WPhase.toLock], queue := [], main := MainPhase.live,
        submitted := [jobOk5], executed := [5] } :=
    h3.tail (Step.runOk _ 0 jobOk5 rfl rfl)
  have h5 : Reachable 1
      { phases := [WPhase.toLock], queue := [], main := MainPhase.joining 0,
        submitted := [jobOk5], executed := [5] } :=
    h4.tail (Step.dropStart _ rfl)
  have h6 : Reachable 1
      { phases := [WPhase.recving], queue := [], main := MainPhase.joining 0,
        submitted := [jobOk5], executed := [5] } :=
    h5.tail (Step.acquire _ 0 rfl (no_recving (by decide)))
  have h7 : Reachable 1
      { phases := [WPhase.done], queue := [], main := MainPhase.joining 0,
        submitted := [jobOk5], executed := [5] } :=
    h6.tail (Step.recvErr _ 0 rfl rfl (by decide))
  exact h7.tail (Step.joinOk _ 0 rfl rfl)

/-- Completion of `reach_joiningSt`: `Drop` returns. -/
theorem reach_doneSt : Reachable 1 doneSt :=
  reach_joiningSt.tail (Step.dropFinish _ 1 rfl (by decide))

/-- Two workers; a panicking job and a normal one; the normal job
completes on worker 1, worker 1 exits cleanly, and `Drop` panics when
joining worker 0. -/
theorem reach_dropCrashSt : Reachable 2 dropCrashSt := by
  have h0 : Reachable 2 (init 2) := Relation.ReflTransGen.refl
  have h1 : Reachable 2
      { phases := [WPhase.toLock, WPhase.toLock], queue := [jobPn],
        main := MainPhase.live, submitted := [jobPn], executed := [] } :=
    h0.tail (Step.execute jobPn rfl)
  have h2 : Reachable 2
      { phases := [WPhase.toLock, WPhase.toLock], queue := [jobPn, jobOk],
        main := MainPhase.live, submitted := [jobPn, jobOk],
        executed := [] } :=
    h1.tail (Step.execute jobOk rfl)
  have h3 : Reachable 2
      { phases := [WPhase.recving, WPhase.toLock], queue := [jobPn, jobOk],
        main := MainPhase.live, submitted := [jobPn, jobOk],
        executed := [] } :=
    h2.tail (Step.acquire _ 0 rfl (no_recving (by decide)))
  have h4 : Reachable 2
      { phases := [WPhase.runJob jobPn, WPhase.toLock], queue := [jobOk],
        main := MainPhase.live, submitted := [jobPn, jobOk],
        executed := [] } :=
    h3.tail (Step.recvOk _ 0 jobPn [jobOk] rfl rfl)
  have h5 : Reachable 2
      { phases := [WPhase.runJob jobPn, WPhase.recving], queue := [jobOk],
        main := MainPhase.live, submitted := [jobPn, jobOk],
        executed := [] } :=
    h4.tail (Step.acquire _ 1 rfl (no_recving (by decide)))
  have h6 : Reachable 2
      { phases := [WPhase.runJob jobPn, WPhase.runJob jobOk], queue := [],
        main := MainPhase.live, submitted := [jobPn, jobOk],
        executed := [] } :=
    h5.tail (Step.recvOk _ 1 jobOk [] rfl rfl)
  have h7 : Reachable 2
      { phases := [WPhase.panicked, WPhase.runJob jobOk], queue := [],
        main := MainPhase.live, submitted := [jobPn, jobOk],
        executed := [1] } :=
    h6.tail (Step.runPanic _ 0 jobPn rfl rfl)
  have h8 : Reachable 2
      { phases := [WPhase.panicked, WPhase.toLock], queue := [],
        main := MainPhase.live, submitted := [jobPn, jobOk],
        executed := [1, 2] } :=
    h7.tail (Step.runOk _ 1 jobOk rfl rfl)
  have h9 : Reachable 2
      { phases := [WPhase.panicked, WPhase.toLock], queue := [],
        main := MainPhase.joining 0, submitted := [jobPn, jobOk],
        executed := [1, 2] } :=
    h8.tail (Step.dropStart _ rfl)
  have h10 : Reachable 2
      { phases := [WPhase.panicked, WPhase.recving], queue := [],
        main := MainPhase.joining 0, submitted := [jobPn, jobOk],
        executed := [1, 2] } :=
    h9.tail (Step.acquire _ 1 rfl (no_recving (by decide)))
  have h11 : Reachable 2
      { phases := [WPhase.panicked, WPhase.done], queue := [],
        main := MainPhase.joining 0, submitted := [jobPn, jobOk],
        executed := [1, 2] } :=
    h10.tail (Step.recvErr _ 1 rfl rfl (by decide))
  exact h11.tail (Step.joinPanic _ 0 rfl rfl)

/-! ### The claims -/

/-- C1: in every reachable state of a pool of `n > 0` workers, the
multiset of executed job identities is contained in the multiset of
submitted ones (no job is ever run more than once, and nothing that was
not submitted is run); and if `Drop` has returned (`main = dropped`) then
every worker thread has exited and the two multisets are equal — every
job submitted through `execute` before the drop was run exactly once, and
the drop could not return earlier because its join loop only passes
workers whose threads have terminated. -/
theorem drop_return_all_jobs_once {n : Nat} {S : Sys} (hn : 0 < n)
    (hR : Reachable n S) :
    executedIds S ≤ submittedIds S ∧
      (S.main = MainPhase.dropped →
        (∀ i : Nat, i < n → S.phases[i]? = some WPhase.done) ∧
          executedIds S = submittedIds S) := by
  have G := good_reachable hR
  constructor
  · rw [G.conserve, add_assoc]
    exact Multiset.le_add_right _ _
  · intro hd
    have hall := G.droppedAllDone hd
    refine ⟨hall, ?_⟩
    have h0 : S.phases[0]? = some WPhase.done := hall 0 hn
    have hq : S.queue = [] := G.queueNilOfDone 0 h0
    have hheld : heldIds S = 0 := by
      unfold heldIds
      apply List.sum_eq_zero
      intro x hx
      rcases List.mem_map.mp hx with ⟨ph, hmem, rfl⟩
      rcases List.mem_iff_getElem?.mp hmem with ⟨i, hi⟩
      have hilt : i < n := by
        have hlen := lt_of_lookup hi
        rwa [G.len] at hlen
      rw [hall i hilt] at hi
      rw [(Option.some_inj.mp hi).symm]
      rfl
    rw [G.conserve]
    simp [queuedIds, hq, hheld]

/-- C1 witness: the theorem applied to the completed one-worker run
`reach_doneSt`. -/
theorem drop_return_all_jobs_once_witness :
    executedIds doneSt ≤ submittedIds doneSt ∧
      (doneSt.main = MainPhase.dropped →
        (∀ i : Nat, i < 1 → doneSt.phases[i]? = some WPhase.done) ∧
          executedIds doneSt = submittedIds doneSt) :=
  drop_return_all_jobs_once (by decide) reach_doneSt

/-- C3: once teardown has begun — the pool's `sender` has been taken, so
the main phase is no longer `live` — `execute` panics
(`self.sender.as_ref().unwrap()` on `None`); it never succeeds. -/
theorem execute_after_teardown_panics (S : Sys) (j : Job)
    (h : S.main ≠ MainPhase.live) :
    S.execOutcome j = .error .unwrapNone := by
  unfold Sys.execOutcome
  cases hm : S.main with
  | live => exact absurd hm h
  | joining k => rfl
  | dropped => rfl
  | panickedMain k => rfl

/-- C3 witness: submitting to the fully dropped one-worker pool panics. -/
theorem execute_after_teardown_panics_witness :
    doneSt.execOutcome jobOk = .error .unwrapNone :=
  execute_after_teardown_panics doneSt jobOk (by decide)

/-- C4: `ThreadPool::new(size)` panics (the `assert!(size > 0)`) exactly
when `size = 0`, and for every positive `size` it returns a pool. -/
theorem new_panics_iff_size_zero (size : Nat) :
    (ThreadPool.new size = .error .assertFailed ↔ size = 0) ∧
      (0 < size → (ThreadPool.new size).isOk = true) := by
  constructor
  · rcases Nat.eq_zero_or_pos size with h | h
    · subst h
      simp [ThreadPool.new]
    · simp [ThreadPool.new, h]
      omega
  · intro h
    simp only [ThreadPool.new, if_pos h]
    rfl

/-- C4 witness: the theorem instantiated at sizes 0 and 2. -/
theorem new_panics_iff_size_zero_witness :
    (ThreadPool.new 0 = .error .assertFailed ↔ (0 : Nat) = 0) ∧
      (ThreadPool.new 2).isOk = true :=
  ⟨(new_panics_iff_size_zero 0).1, (new_panics_iff_size_zero 2).2 (by decide)⟩

/-- C2 counterexample: a run of a two-worker pool in which worker 0's job
panicked, worker 1's queued job completed normally and worker 1 exited —
yet dropping the pool did not complete: `Drop` itself panicked
(`thread.join().unwrap()` on the dead worker), ending in
`main = panickedMain 0`, never in `dropped`. -/
theorem drop_crashes_after_job_panic_cx :
    Reachable 2 dropCrashSt ∧
      dropCrashSt.main = MainPhase.panickedMain 0 ∧
      dropCrashSt.executed = [1, 2] :=
  ⟨reach_dropCrashSt, rfl, rfl⟩

/-- C2 (amended): a panicking job terminates only its own worker thread —
the panic step is always enabled and changes no other worker's phase, no
queue entry and not the main thread — but when the pool is dropped
afterwards, `Drop` panics at `thread.join().unwrap()` on that worker: in
every reachable state where `Drop` has panicked (`panickedMain k`), the
joined worker's thread was killed by a panic of some submitted job. -/
theorem panic_isolated_but_drop_panics :
    (∀ (S : Sys) (i : Nat) (j : Job),
        S.phases[i]? = some (WPhase.runJob j) → j.panics = true →
          Step S { S with phases := S.phases.set i .panicked,
                          executed := S.executed ++ [j.id] } ∧
            ∀ k : Nat, k ≠ i →
              (S.phases.set i WPhase.panicked)[k]? = S.phases[k]?) ∧
      (∀ (n : Nat) (S : Sys) (k : Nat), Reachable n S →
        S.main = MainPhase.panickedMain k →
          S.phases[k]? = some WPhase.panicked ∧
            ∃ j ∈ S.submitted, j.panics = true) := by
  constructor
  · intro S i j hi hp
    refine ⟨Step.runPanic S i j hi hp, fun k hk => ?_⟩
    rw [set_lookup hi]
    exact if_neg (fun h => hk h.symm)
  · intro n S k hR hm
    have G := good_reachable hR
    have hp := G.panickedMainPanicked k hm
    exact ⟨hp, G.panickedSubmitted k hp⟩

/-- C2 witness: the amended theorem applied to the crashed-drop run. -/
theorem panic_isolated_but_drop_panics_witness :
    dropCrashSt.phases[0]? = some WPhase.panicked ∧
      ∃ j ∈ dropCrashSt.submitted, j.panics = true :=
  panic_isolated_but_drop_panics.2 2 dropCrashSt 0 reach_dropCrashSt rfl

/-- C5: teardown structure.  (1) From a live pool, the only main-thread
transition out of `live` is the start of `Drop`, which drops the sender
and enters the join loop at worker 0.  (2) From join position `k`, the
main thread either stays (worker `k` still running), advances to exactly
`k + 1` after joining worker `k` once (its thread having exited), panics
at worker `k`, or returns once `k` is past the worker list — so handles
are consumed one at a time, in construction order, each at most once.
(3) In every reachable state at join position `k`, all workers before `k`
have exited and `k` never exceeds the pool size. -/
theorem drop_joins_in_order :
    (∀ S S' : Sys, Step S S' → S.main = MainPhase.live →
        S'.main = MainPhase.live ∨ S'.main = MainPhase.joining 0) ∧
      (∀ (S S' : Sys) (k : Nat), Step S S' → S.main = MainPhase.joining k →
        S'.main = MainPhase.joining k ∨
          (S'.main = MainPhase.joining (k + 1) ∧
            S.phases[k]? = some WPhase.done) ∨
          (S'.main = MainPhase.panickedMain k ∧
            S.phases[k]? = some WPhase.panicked) ∨
          (S'.main = MainPhase.dropped ∧ S.phases.length ≤ k)) ∧
      (∀ (n : Nat) (S : Sys) (k : Nat), Reachable n S →
        S.main = MainPhase.joining k →
          k ≤ n ∧ ∀ i : Nat, i < k → S.phases[i]? = some WPhase.done) := by
  refine ⟨?_, ?_, ?_⟩
  · intro S S' st hm
    cases st with
    | execute j h =>
      rcases execOutcome_ok_iff.mp h with ⟨_, _, rfl⟩
      exact Or.inl hm
    | acquire i hi hfree => exact Or.inl hm
    | recvOk i j rest hi hq => exact Or.inl hm
    | recvErr i hi hq hs => exact absurd hm hs
    | runOk i j hi hp => exact Or.inl hm
    | runPanic i j hi hp => exact Or.inl hm
    | dropStart h => exact Or.inr rfl
    | joinOk k hmm hk => rw [hmm] at hm; simp at hm
    | joinPanic k hmm hk => rw [hmm] at hm; simp at hm
    | dropFinish k hmm hk => rw [hmm] at hm; simp at hm
  · intro S S' k st hm
    cases st with
    | execute j h =>
      rcases execOutcome_ok_iff.mp h with ⟨_, _, rfl⟩
      exact Or.inl hm
    | acquire i hi hfree => exact Or.inl hm
    | recvOk i j rest hi hq => exact Or.inl hm
    | recvErr i hi hq hs => exact Or.inl hm
    | runOk i j hi hp => exact Or.inl hm
    | runPanic i j hi hp => exact Or.inl hm
    | dropStart h => rw [h] at hm; simp at hm
    | joinOk k' hmm hk =>
      rw [hmm] at hm
      have hkk : k' = k := by simpa using hm
      subst hkk
      exact Or.inr (Or.inl ⟨rfl, hk⟩)
    | joinPanic k' hmm hk =>
      rw [hmm] at hm
      have hkk : k' = k := by simpa using hm
      subst hkk
      exact Or.inr (Or.inr (Or.inl ⟨rfl, hk⟩))
    | dropFinish k' hmm hk =>
      rw [hmm] at hm
      have hkk : k' = k := by simpa using hm
      subst hkk
      exact Or.inr (Or.inr (Or.inr ⟨rfl, hk⟩))
  · intro n S k hR hm
    exact (good_reachable hR).joinDone k hm

/-- C5 witness: the reachable‐state part applied to the one-worker run
paused after joining worker 0. -/
theorem drop_joins_in_order_witness :
    1 ≤ 1 ∧ ∀ i : Nat, i < 1 → joiningSt.phases[i]? = some WPhase.done :=
  drop_joins_in_order.2.2 1 joiningSt 1 reach_joiningSt rfl

/-- C6 counterexample: in a one-worker pool whose only job panicked, the
pool is still alive (`main = live`, the sender is still owned) and yet
`send` fails — every consumer-side handle is gone because the only worker
thread was killed by the panicking job, so `execute`'s
`send(job).unwrap()` panics while the pool is alive. -/
theorem send_fails_while_pool_alive_cx :
    Reachable 1 oneDeadSt ∧ oneDeadSt.main = MainPhase.live ∧
      oneDeadSt.execOutcome jobOk = .error .sendFailed :=
  ⟨reach_oneDeadSt, rfl, rfl⟩

/-- C6 (amended): the send inside `execute` never blocks (`execOutcome`
is total) and fails only when the receiver is gone; while the pool is
alive that can only happen because every worker thread was terminated by
a panicking job — if no submitted job panics, a live pool's `execute`
always succeeds and simply appends the job to the backlog. -/
theorem send_ok_while_alive_without_panics :
    (∀ (S : Sys) (j : Job), S.main = MainPhase.live →
        S.execOutcome j = .error .sendFailed → receiverAlive S = false) ∧
      (∀ (n : Nat) (S : Sys), 0 < n → Reachable n S →
        (∀ j ∈ S.submitted, j.panics = false) → S.main = MainPhase.live →
          ∀ j : Job, S.execOutcome j
            = .ok { S with queue := S.queue ++ [j],
                           submitted := S.submitted ++ [j] }) := by
  constructor
  · intro S j hm herr
    unfold Sys.execOutcome at herr
    simp only [hm] at herr
    by_cases ha : receiverAlive S = true
    · rw [if_pos ha] at herr
      simp at herr
    · simpa using ha
  · intro n S hn hR hnp hm j
    have G := good_reachable hR
    have hlen : 0 < S.phases.length := by
      rw [G.len]
      exact hn
    have hph : S.phases[0]? = some S.phases[0] :=
      List.getElem?_eq_some.mpr ⟨hlen, rfl⟩
    have hmem : S.phases[0] ∈ S.phases := List.getElem?_mem hph
    have hterm : (S.phases[0]).terminal = false := by
      cases hph0 : S.phases[0] with
      | done =>
        rw [hph0] at hph
        exact absurd hph (G.noDoneWhileUsing hm 0)
      | panicked =>
        rw [hph0] at hph
        obtain ⟨j', hj', hjp⟩ := G.panickedSubmitted 0 hph
        rw [hnp j' hj'] at hjp
        simp at hjp
      | toLock => rfl
      | recving => rfl
      | runJob j' => rfl
    have halive : receiverAlive S = true := by
      unfold receiverAlive
      rw [List.any_eq_true]
      exact ⟨S.phases[0], hmem, by simp [hterm]⟩
    exact execOutcome_ok_iff.mpr ⟨hm, halive, rfl⟩

/-- C6 witness: the amended theorem applied to the freshly constructed
one-worker pool. -/
theorem send_ok_while_alive_without_panics_witness :
    (init 1).execOutcome jobOk
      = .ok { init 1 with
              queue := (init 1).queue ++ [jobOk],
              submitted := (init 1).submitted ++ [jobOk] } :=
  send_ok_while_alive_without_panics.2 1 (init 1) (by decide)
    Relation.ReflTransGen.refl (by simp [init]) rfl jobOk

/-- No step of the system ever changes the number of workers. -/
theorem step_preserves_length {S S' : Sys} (st : Step S S') :
    S'.phases.length = S.phases.length := by
  cases st with
  | execute j h =>
    rcases execOutcome_ok_iff.mp h with ⟨_, _, rfl⟩
    rfl
  | acquire i hi hfree => simp [List.length_set]
  | recvOk i j rest hi hq => simp [List.length_set]
  | recvErr i hi hq hs => simp [List.length_set]
  | runOk i j hi hp => simp [List.length_set]
  | runPanic i j hi hp => simp [List.length_set]
  | dropStart h => rfl
  | joinOk k hm hk => rfl
  | joinPanic k hm hk => rfl
  | dropFinish k hm hk => rfl

/-- How one system step affects the phase seen at any single position:
either the position is untouched, or it is the updated one and changes
from the old to the new phase. -/
theorem step_phase_lookup {S : Sys} {i : Nat} {old a : WPhase}
    (hi : S.phases[i]? = some old) {k : Nat} {ph ph' : WPhase}
    (hph : S.phases[k]? = some ph)
    (hph' : (S.phases.set i a)[k]? = some ph') :
    ph = ph' ∨ (ph = old ∧ ph' = a) := by
  rw [set_lookup hi] at hph'
  split at hph'
  next heq =>
    subst heq
    rw [hph] at hi
    exact Or.inr ⟨Option.some_inj.mp hi, (Option.some_inj.mp hph').symm⟩
  next =>
    rw [hph] at hph'
    exact Or.inl (Option.some_inj.mp hph')

/-- C7: each worker follows the two-state loop machine.  All workers
start at the loop top (RUNNING); every system step preserves the number
of workers (a dead worker is never replaced) and moves each worker's
phase either not at all or along one worker transition `WStep`; and the
terminated phases — `done` (EXITED, reached exactly when `recv()` signals
closed) and `panicked` — have no outgoing transition, so a worker never
restarts. -/
theorem worker_state_machine :
    (∀ n : Nat, (init n).phases = List.replicate n WPhase.toLock) ∧
      (∀ S S' : Sys, Step S S' →
        S'.phases.length = S.phases.length ∧
          ∀ (i : Nat) (ph ph' : WPhase), S.phases[i]? = some ph →
            S'.phases[i]? = some ph' → ph = ph' ∨ WStep ph ph') ∧
      (∀ ph : WPhase, ¬ WStep WPhase.done ph) ∧
      (∀ ph : WPhase, ¬ WStep WPhase.panicked ph) := by
  refine ⟨fun n => rfl, ?_, ?_, ?_⟩
  · intro S S' st
    refine ⟨step_preserves_length st, fun a ph ph' hph hph' => ?_⟩
    cases st with
    | execute j h =>
      rcases execOutcome_ok_iff.mp h with ⟨_, _, rfl⟩
      rw [hph] at hph'
      exact Or.inl (Option.some_inj.mp hph')
    | acquire i hi hfree =>
      rcases step_phase_lookup hi hph hph' with h | ⟨h1, h2⟩
      · exact Or.inl h
      · subst h1; subst h2
        exact Or.inr WStep.acquire
    | recvOk i j rest hi hq =>
      rcases step_phase_lookup hi hph hph' with h | ⟨h1, h2⟩
      · exact Or.inl h
      · subst h1; subst h2
        exact Or.inr (WStep.recvOk j)
    | recvErr i hi hq hs =>
      rcases step_phase_lookup hi hph hph' with h | ⟨h1, h2⟩
      · exact Or.inl h
      · subst h1; subst h2
        exact Or.inr WStep.recvErr
    | runOk i j hi hp =>
      rcases step_phase_lookup hi hph hph' with h | ⟨h1, h2⟩
      · exact Or.inl h
      · subst h1; subst h2
        exact Or.inr (WStep.runOk j hp)
    | runPanic i j hi hp =>
      rcases step_phase_lookup hi hph hph' with h | ⟨h1, h2⟩
      · exact Or.inl h
      · subst h1; subst h2
        exact Or.inr (WStep.runPanic j hp)
    | dropStart h =>
      rw [hph] at hph'
      exact Or.inl (Option.some_inj.mp hph')
    | joinOk k hm hk =>
      rw [hph] at hph'
      exact Or.inl (Option.some_inj.mp hph')
    | joinPanic k hm hk =>
      rw [hph] at hph'
      exact Or.inl (Option.some_inj.mp hph')
    | dropFinish k hm hk =>
      rw [hph] at hph'
      exact Or.inl (Option.some_inj.mp hph')
  · intro ph h
    cases h
  · intro ph h
    cases h

/-- C7 witness: the step part applied to a concrete lock-acquisition step
of the freshly constructed one-worker pool. -/
theorem worker_state_machine_witness :
    ((init 1).phases.set 0 WPhase.recving).length = (init 1).phases.length :=
  (worker_state_machine.2.1 (init 1)
    { init 1 with phases := (init 1).phases.set 0 WPhase.recving }
    (Step.acquire (init 1) 0 rfl (no_recving (by decide)))).1

/-- C8: the mutex serializes exactly the dequeue step.  In every
reachable state at most one worker holds the lock inside `recv()`
(`recving` — the guard exists only for the duration of the
`receiver.lock().unwrap().recv()` statement), and the lock is released
before the dequeued job runs: the state `bothRunSt`, in which two workers
are executing their jobs at the same time, is reachable, so job execution
is not serialized across workers. -/
theorem lock_only_around_dequeue :
    (∀ (n : Nat) (S : Sys), Reachable n S →
        ∀ i k : Nat, S.phases[i]? = some WPhase.recving →
          S.phases[k]? = some WPhase.recving → i = k) ∧
      (Reachable 2 bothRunSt ∧
        bothRunSt.phases = [WPhase.runJob jobOk, WPhase.runJob jobOk3]) := by
  constructor
  · intro n S hR
    exact (good_reachable hR).mutex
  · exact ⟨reach_bothRunSt, rfl⟩

/-- C8 witness: the mutual-exclusion part applied to the reachable state
in which worker 0 holds the lock. -/
theorem lock_only_around_dequeue_witness : (0 : Nat) = 0 :=
  lock_only_around_dequeue.1 2 lockSt reach_lockSt 0 0 rfl rfl

/-- C9: for every positive `size`, `ThreadPool::new(size)` returns a pool
with exactly `size` workers; right after construction all `size` worker
threads have been spawned and sit at their loop top sharing the one
channel of the one `Sys` state; and no step of the system ever adds or
removes a worker. -/
theorem new_spawns_size_workers (size : Nat) (h : 0 < size) :
    (∃ p : PoolSt, ThreadPool.new size = .ok p ∧ p.workers.length = size) ∧
      (init size).phases = List.replicate size WPhase.toLock ∧
      ∀ S S' : Sys, Step S S' → S'.phases.length = S.phases.length := by
  refine ⟨⟨{ workers := List.replicate size (some ()), sender := some () },
    ?_, by simp⟩, rfl, ?_⟩
  · simp [ThreadPool.new, h]
  · intro S S' st
    exact step_preserves_length st

/-- C9 witness: the theorem instantiated at size 3. -/
theorem new_spawns_size_workers_witness :
    (∃ p : PoolSt, ThreadPool.new 3 = .ok p ∧ p.workers.length = 3) ∧
      (init 3).phases = List.replicate 3 WPhase.toLock :=
  ⟨(new_spawns_size_workers 3 (by decide)).1,
    (new_spawns_size_workers 3 (by decide)).2.1⟩

/-- A successful run of `Drop`'s join loop leaves every thread-handle
slot empty (each `worker.thread.take()` was executed). -/
theorem joinLoop_ok_all_none (f : Nat → Bool) :
    ∀ (ws : List (Option Unit)) (i : Nat) (ws' : List (Option Unit)),
      joinLoop f i ws = .ok ws' → ∀ w ∈ ws', w = none := by
  intro ws
  induction ws with
  | nil =>
    intro i ws' h
    cases h
    simp
  | cons w ws ih =>
    intro i ws' h
    unfold joinLoop at h
    cases w with
    | some u =>
      rw [if_neg] at h
      · cases hrec : joinLoop f (i + 1) ws with
        | error e =>
          rw [hrec] at h
          simp [Except.map] at h
        | ok ws2 =>
          rw [hrec] at h
          simp only [Except.map] at h
          cases h
          intro x hx
          rcases List.mem_cons.mp hx with rfl | hx2
          · rfl
          · exact ih (i + 1) ws2 hrec x hx2
      · intro hf
        rw [if_pos hf] at h
        cases h
    | none =>
      cases hrec : joinLoop f (i + 1) ws with
      | error e =>
        rw [hrec] at h
        simp [Except.map] at h
      | ok ws2 =>
        rw [hrec] at h
        simp only [Except.map] at h
        cases h
        intro x hx
        rcases List.mem_cons.mp hx with rfl | hx2
        · rfl
        · exact ih (i + 1) ws2 hrec x hx2

/-- C10: the struct fields over the pool's life cycle.  `new` returns a
pool whose `sender` is `Some` and all of whose workers hold `Some` thread
handle; a successful `execute` leaves the struct unchanged (it takes
`&self`); and the only code that ever empties the fields is `Drop`, which
takes the sender and each thread handle, leaving all of them `None` when
it completes. -/
theorem fields_some_until_drop :
    (∀ (size : Nat) (p : PoolSt), ThreadPool.new size = .ok p →
        p.sender = some () ∧ ∀ w ∈ p.workers, w = some ()) ∧
      (∀ (p : PoolSt) (r : Bool) (p' : PoolSt),
        p.executeOutcome r = .ok p' → p' = p) ∧
      (∀ (p : PoolSt) (f : Nat → Bool) (q : PoolSt),
        p.dropRun f = .ok q →
          q.sender = none ∧ ∀ w ∈ q.workers, w = none) := by
  refine ⟨?_, ?_, ?_⟩
  · intro size p hp
    unfold ThreadPool.new at hp
    split at hp
    next h =>
      cases hp
      exact ⟨rfl, fun w hw => List.eq_of_mem_replicate hw⟩
    next h => cases hp
  · intro p r p' h
    unfold PoolSt.executeOutcome at h
    split at h
    next => cases h
    next u =>
      by_cases hr : r = true
      · rw [if_pos hr] at h
        injection h with h2
        exact h2.symm
      · rw [if_neg hr] at h
        cases h
  · intro p f q h
    unfold PoolSt.dropRun at h
    cases hjl : joinLoop f 0 p.workers with
    | error e =>
      rw [hjl] at h
      simp [Except.map] at h
    | ok ws' =>
      rw [hjl] at h
      simp only [Except.map] at h
      cases h
      exact ⟨rfl, joinLoop_ok_all_none f p.workers 0 ws' hjl⟩

/-- C10 witness: the `new` part applied to a one-worker pool. -/
theorem fields_some_until_drop_witness :
    ({ workers := List.replicate 1 (some ()), sender := some () }
        : PoolSt).sender = some () ∧
      ∀ w ∈ ({ workers := List.replicate 1 (some ()), sender := some () }
        : PoolSt).workers, w = some () :=
  fields_some_until_drop.1 1 _ (by simp [ThreadPool.new])

end Threadpool
